import Mathlib

/-!
Verification of the contact-book program (`task_1.py`).

The program is shallowly embedded: every `def` below mirrors a Python
function/method of the source file, translated as a pure Lean function.
Python exceptions become `Except PyErr`; in-place mutation of a record or
of the address-book dictionary becomes explicit state passing; the
`dict` that backs `AddressBook` becomes an insertion-ordered association
list with Python `dict` update semantics (updating an existing key keeps
its position, inserting a new key appends).

Strings are restricted to their ASCII behaviour: Python's `str.isdigit`
and `_strptime`'s `\d` additionally accept some non-ASCII Unicode digit
characters, which this embedding does not model; on ASCII strings the
embedding agrees with CPython.
-/

set_option autoImplicit false

/-- The only exception kind the embedded code raises: Python `ValueError`
with its message. -/
inductive PyErr where
  | valueError (msg : String)
  deriving DecidableEq, Repr

/-- Proleptic-Gregorian leap-year rule used by Python `datetime`. -/
def isLeap (y : Nat) : Bool :=
  y % 4 == 0 && (y % 100 != 0 || y % 400 == 0)

/-- Length of month `m` of year `y`, as in Python `calendar`/`datetime`. -/
def daysInMonth (y m : Nat) : Nat :=
  if m = 2 then (if isLeap y then 29 else 28)
  else if m = 4 ∨ m = 6 ∨ m = 9 ∨ m = 11 then 30 else 31

/-- A Python `datetime.date` value. -/
structure PyDate where
  year : Nat
  month : Nat
  day : Nat
  deriving DecidableEq, Repr

/-- The validity check performed by the `datetime.date` constructor
(`MINYEAR = 1`, `MAXYEAR = 9999`). -/
def validDate (y m d : Nat) : Bool :=
  1 ≤ y && y ≤ 9999 && 1 ≤ m && m ≤ 12 && 1 ≤ d && d ≤ daysInMonth y m

/-- Python `date.__lt__`: lexicographic on (year, month, day). -/
def dateLt (a b : PyDate) : Bool :=
  a.year < b.year ||
    (a.year == b.year &&
      (a.month < b.month || (a.month == b.month && a.day < b.day)))

/-- Python `date.__le__`. -/
def dateLe (a b : PyDate) : Bool :=
  dateLt a b || a == b

/-- Python `d + timedelta(days=7)` on a valid date.  Seven days never skip a whole
month (every month has at least 28 days), so at most one month boundary is
crossed, with the year rolling over after December. -/
def addDays7 (d : PyDate) : PyDate :=
  if d.day + 7 ≤ daysInMonth d.year d.month then ⟨d.year, d.month, d.day + 7⟩
  else if d.month = 12 then ⟨d.year + 1, 1, d.day + 7 - daysInMonth d.year d.month⟩
  else ⟨d.year, d.month + 1, d.day + 7 - daysInMonth d.year d.month⟩

/-- The digit character for `n < 10`. -/
def dchr (n : Nat) : Char :=
  Char.ofNat (48 + n)

/-- Numeric value of a digit character. -/
def dval (c : Char) : Nat :=
  c.toNat - 48

/-- Two decimal digits, zero padded (`strftime` field `%d` / `%m`). -/
def pad2 (n : Nat) : List Char :=
  [dchr (n / 10 % 10), dchr (n % 10)]

/-- Four decimal digits, zero padded (`strftime` field `%Y`; on some libc
builds years below 1000 are printed unpadded — the embedding uses the
zero-padded form documented for Python's format codes). -/
def pad4 (n : Nat) : List Char :=
  [dchr (n / 1000 % 10), dchr (n / 100 % 10), dchr (n / 10 % 10), dchr (n % 10)]

/-- Python `d.strftime("%d.%m.%Y")`. -/
def strftimeDMY (d : PyDate) : String :=
  ⟨pad2 d.day ++ '.' :: pad2 d.month ++ '.' :: pad4 d.year⟩

/-- Value of a two-digit group. -/
def two (a b : Char) : Nat :=
  10 * dval a + dval b

/-- Value of a four-digit group. -/
def four (e f g h : Char) : Nat :=
  1000 * dval e + 100 * dval f + 10 * dval g + dval h

/-- Python `datetime.strptime(s, "%d.%m.%Y")`, returning `(day, month, year)`
before the `datetime` constructor's calendar check.

CPython's `_strptime` compiles the format to the anchored, fully-consumed
regex `(3[01]|[12]\d|0[1-9]|[1-9])\.(1[0-2]|0[1-9]|[1-9])\.(\d\d\d\d)`:
the day group matches two digits whose value lies in 1..31, or else a
single digit 1..9; the month group two digits valued 1..12, or a single
digit 1..9; the year exactly four digits.  Each two-digit alternative
requires the second character to be a digit while the following literal
`'.'` is not, so the regex engine never needs to backtrack from a
two-digit match to a one-digit one; matching is therefore decided by the
positions of the two dots alone, which is how it is written here. -/
def strptimeDMY (s : String) : Option (Nat × Nat × Nat) :=
  match s.data with
  | [a, b, '.', c, d, '.', e, f, g, h] =>
      if a.isDigit ∧ b.isDigit ∧ c.isDigit ∧ d.isDigit ∧
          e.isDigit ∧ f.isDigit ∧ g.isDigit ∧ h.isDigit ∧
          1 ≤ two a b ∧ two a b ≤ 31 ∧ 1 ≤ two c d ∧ two c d ≤ 12 then
        some (two a b, two c d, four e f g h)
      else none
  | [a, b, '.', c, '.', e, f, g, h] =>
      if a.isDigit ∧ b.isDigit ∧ c.isDigit ∧
          e.isDigit ∧ f.isDigit ∧ g.isDigit ∧ h.isDigit ∧
          1 ≤ two a b ∧ two a b ≤ 31 ∧ 1 ≤ dval c then
        some (two a b, dval c, four e f g h)
      else none
  | [a, '.', c, d, '.', e, f, g, h] =>
      if a.isDigit ∧ c.isDigit ∧ d.isDigit ∧
          e.isDigit ∧ f.isDigit ∧ g.isDigit ∧ h.isDigit ∧
          1 ≤ dval a ∧ 1 ≤ two c d ∧ two c d ≤ 12 then
        some (dval a, two c d, four e f g h)
      else none
  | [a, '.', c, '.', e, f, g, h] =>
      if a.isDigit ∧ c.isDigit ∧
          e.isDigit ∧ f.isDigit ∧ g.isDigit ∧ h.isDigit ∧
          1 ≤ dval a ∧ 1 ≤ dval c then
        some (dval a, dval c, four e f g h)
      else none
  | _ => none

/-- Python `str.isdigit` (ASCII fragment): true iff the string is nonempty
and all of its characters are decimal digits. -/
def pyIsdigit (s : String) : Bool :=
  !s.data.isEmpty && s.data.all Char.isDigit

/-- The message of the `ValueError` raised by `Phone.__init__`. -/
def phoneErrMsg : String := "Phone number must contain exactly 10 digits"

/-- The message of the `ValueError` raised by `Birthday.__init__`. -/
def dateErrMsg : String := "Invalid date format. Use DD.MM.YYYY"

/-- A validated phone field (`Phone`), holding its raw value. -/
structure Phone where
  value : String
  deriving DecidableEq, Repr

/-- The validator `Phone.__init__`: rejects unless the value is all digits and exactly 10
characters long. -/
def Phone.init (v : String) : Except PyErr Phone :=
  if !pyIsdigit v || v.length != 10 then
    .error (.valueError phoneErrMsg)
  else
    .ok ⟨v⟩

/-- A validated birthday field (`Birthday`), holding the parsed date. -/
structure Birthday where
  value : PyDate
  deriving DecidableEq, Repr

/-- The validator `Birthday.__init__`: a `strptime` parse followed by the `date`
constructor's calendar check; any `ValueError` is re-raised with the fixed
message. -/
def Birthday.init (v : String) : Except PyErr Birthday :=
  match strptimeDMY v with
  | some (d, m, y) =>
      if validDate y m d then .ok ⟨⟨y, m, d⟩⟩
      else .error (.valueError dateErrMsg)
  | none => .error (.valueError dateErrMsg)

/-- One contact record (`Record`): name, ordered phone list, optional
birthday. -/
structure Record where
  name : String
  phones : List Phone
  birthday : Option Birthday
  deriving DecidableEq, Repr

/-- The constructor `Record.__init__`. -/
def Record.init (name : String) : Record :=
  ⟨name, [], none⟩

/-- Method `Record.add_phone`: post-state of the record paired with the raised
exception, if any (on failure the record is unchanged). -/
def Record.add_phone (r : Record) (phone : String) : Record × Except PyErr Unit :=
  match Phone.init phone with
  | .ok p => ({ r with phones := r.phones ++ [p] }, .ok ())
  | .error e => (r, .error e)

/-- Index of the first phone whose `value` equals `v` (the scan performed
by `Record.edit_phone`). -/
def firstIdx (ps : List Phone) (v : String) : Option Nat :=
  match ps with
  | [] => none
  | p :: rest => if p.value = v then some 0 else (firstIdx rest v).map (· + 1)

/-- Method `Record.edit_phone`: find the first phone equal to `old_phone`, build
`Phone(new_phone)` (which may raise), assign it at that index; raise
`"Old phone not found"` when the scan finds nothing. -/
def Record.edit_phone (r : Record) (old_phone new_phone : String) :
    Record × Except PyErr Unit :=
  match firstIdx r.phones old_phone with
  | some i =>
      match Phone.init new_phone with
      | .ok p => ({ r with phones := r.phones.set i p }, .ok ())
      | .error e => (r, .error e)
  | none => (r, .error (.valueError "Old phone not found"))

/-- Method `Record.add_birthday`: replaces any existing birthday. -/
def Record.add_birthday (r : Record) (bday : String) : Record × Except PyErr Unit :=
  match Birthday.init bday with
  | .ok b => ({ r with birthday := some b }, .ok ())
  | .error e => (r, .error e)

/-- Assignment `d[k] = v` on an insertion-ordered association list, with
Python `dict` semantics: an existing key keeps its position and gets the
new value, a new key is appended at the end. -/
def assocSet (l : List (String × Record)) (k : String) (v : Record) :
    List (String × Record) :=
  match l with
  | [] => [(k, v)]
  | (k', v') :: rest => if k' = k then (k, v) :: rest else (k', v') :: assocSet rest k v

/-- Lookup `d.get(k)` on the association list. -/
def lookupName (l : List (String × Record)) (k : String) : Option Record :=
  match l with
  | [] => none
  | (k', v') :: rest => if k' = k then some v' else lookupName rest k

/-- The `AddressBook` class: a `UserDict` mapping names to records, embedded as an
insertion-ordered association list. -/
structure AddressBook where
  data : List (String × Record)
  deriving DecidableEq, Repr

/-- The keys of the underlying dict are pairwise distinct — automatically
true for a real Python `dict`, an invariant of the list embedding. -/
def NodupKeys (l : List (String × Record)) : Prop :=
  (l.map Prod.fst).Nodup

/-- Method `AddressBook.add_record`: `self.data[record.name.value] = record`. -/
def AddressBook.add_record (book : AddressBook) (r : Record) : AddressBook :=
  ⟨assocSet book.data r.name r⟩

/-- Method `AddressBook.find`: `self.data.get(name)`. -/
def AddressBook.find (book : AddressBook) (name : String) : Option Record :=
  lookupName book.data name

/-- Python `date.replace(year=y)`: rebuilds the date through the validating
constructor, so Feb 29 re-anchored into a non-leap year raises. -/
def replaceYear (d : PyDate) (y : Nat) : Except PyErr PyDate :=
  if validDate y d.month d.day then .ok ⟨y, d.month, d.day⟩
  else .error (.valueError "day is out of range for month")

/-- The loop body of `AddressBook.get_upcoming_birthdays` over the dict
entries: any `ValueError` raised by `replace` aborts the whole loop. -/
def gubEntries (today nextWeek : PyDate) :
    List (String × Record) → Except PyErr (List String)
  | [] => .ok []
  | (name, r) :: rest =>
      match r.birthday with
      | none => gubEntries today nextWeek rest
      | some b =>
          match replaceYear b.value today.year with
          | .error e => .error e
          | .ok c0 =>
              match (if dateLt c0 today then replaceYear b.value (today.year + 1)
                     else .ok c0) with
              | .error e => .error e
              | .ok c =>
                  match gubEntries today nextWeek rest with
                  | .error e => .error e
                  | .ok tail =>
                      .ok (if dateLe today c ∧ dateLe c nextWeek then
                             (name ++ ": " ++ strftimeDMY c) :: tail
                           else tail)

/-- Method `AddressBook.get_upcoming_birthdays`, parameterised by the reference
date the source reads from `datetime.today()`. -/
def AddressBook.get_upcoming_birthdays (book : AddressBook) (today : PyDate) :
    Except PyErr (List String) :=
  gubEntries today (addDays7 today) book.data

/-- The message produced by the `input_error` decorator for `ValueError`. -/
def genericValueMsg : String := "Give me valid name, phone or date, please."

/-- The `birthdays` command handler wrapped in `input_error`: joins the
query result with newlines (empty result is falsy), and any `ValueError`
escaping the query becomes the generic message. -/
def birthdays_cmd (book : AddressBook) (today : PyDate) : String :=
  match book.get_upcoming_birthdays today with
  | .ok l =>
      let s := String.intercalate "\n" l
      if s = "" then "No upcoming birthdays." else s
  | .error _ => genericValueMsg

/-- The `add_contact` command handler wrapped in `input_error`, returning
the printed message and the post-state of the book.  `name, phone, *_ =
args` raises `ValueError` when fewer than two arguments are given; a
record missing from the book is created and inserted before the phone is
validated, and mutating the found/created record through its alias
rewrites the book's entry for that name. -/
def add_contact (args : List String) (book : AddressBook) : String × AddressBook :=
  match args with
  | name :: phone :: _ =>
      match book.find name with
      | some r =>
          if phone = "" then ("Contact updated.", book)
          else
            match Phone.init phone with
            | .ok p =>
                ("Contact updated.",
                  ⟨assocSet book.data name { r with phones := r.phones ++ [p] }⟩)
            | .error _ => (genericValueMsg, book)
      | none =>
          let r := Record.init name
          let book1 := book.add_record r
          if phone = "" then ("Contact added.", book1)
          else
            match Phone.init phone with
            | .ok p =>
                ("Contact added.",
                  ⟨assocSet book1.data name { r with phones := r.phones ++ [p] }⟩)
            | .error _ => (genericValueMsg, book1)
  | _ => (genericValueMsg, book)

/-- A pickled Python object graph, at the level of detail `pickle`
round-trips: strings, non-negative ints, `None`, lists, string-keyed
dicts, and class instances with their attribute dict. -/
inductive PVal where
  | pstr : String → PVal
  | pnat : Nat → PVal
  | pnone : PVal
  | plist : List PVal → PVal
  | pdict : List (String × PVal) → PVal
  | pobj : String → List (String × PVal) → PVal

/-- The pickle of a `Phone` instance. -/
def picklePhone (p : Phone) : PVal :=
  .pobj "Phone" [("value", .pstr p.value)]

/-- The pickle of a `datetime.date`. -/
def pickleDate (d : PyDate) : PVal :=
  .pobj "date" [("year", .pnat d.year), ("month", .pnat d.month), ("day", .pnat d.day)]

/-- The pickle of a `Birthday` instance. -/
def pickleBirthday (b : Birthday) : PVal :=
  .pobj "Birthday" [("value", pickleDate b.value)]

/-- The pickle of a `Record` instance. -/
def pickleRecord (r : Record) : PVal :=
  .pobj "Record"
    [("name", .pobj "Name" [("value", .pstr r.name)]),
     ("phones", .plist (r.phones.map picklePhone)),
     ("birthday", match r.birthday with | none => .pnone | some b => pickleBirthday b)]

/-- The pickle of the whole `AddressBook` (a `UserDict` whose state is its
`data` dict). -/
def pickleBook (book : AddressBook) : PVal :=
  .pobj "AddressBook"
    [("data", .pdict (book.data.map fun kv => (kv.1, pickleRecord kv.2)))]

/-- Unpickling a `Phone`. -/
def unpicklePhone : PVal → Option Phone
  | .pobj "Phone" [("value", .pstr s)] => some ⟨s⟩
  | _ => none

/-- Unpickling a `datetime.date`. -/
def unpickleDate : PVal → Option PyDate
  | .pobj "date" [("year", .pnat y), ("month", .pnat m), ("day", .pnat d)] =>
      some ⟨y, m, d⟩
  | _ => none

/-- Unpickling a `Birthday`. -/
def unpickleBirthday : PVal → Option Birthday
  | .pobj "Birthday" [("value", v)] => (unpickleDate v).map Birthday.mk
  | _ => none

/-- Unpickling a phone list. -/
def unpicklePhones : List PVal → Option (List Phone)
  | [] => some []
  | v :: rest =>
      match unpicklePhone v, unpicklePhones rest with
      | some p, some ps => some (p :: ps)
      | _, _ => none

/-- Unpickling a `Record`. -/
def unpickleRecord : PVal → Option Record
  | .pobj "Record" [("name", .pobj "Name" [("value", .pstr n)]),
                    ("phones", .plist ps), ("birthday", bv)] =>
      match unpicklePhones ps, bv with
      | some phones, .pnone => some ⟨n, phones, none⟩
      | some phones, v =>
          match unpickleBirthday v with
          | some b => some ⟨n, phones, some b⟩
          | none => none
      | none, _ => none
  | _ => none

/-- Unpickling the dict entries of an `AddressBook`. -/
def unpickleEntries : List (String × PVal) → Option (List (String × Record))
  | [] => some []
  | (k, v) :: rest =>
      match unpickleRecord v, unpickleEntries rest with
      | some r, some l => some ((k, r) :: l)
      | _, _ => none

/-- Unpickling an `AddressBook`. -/
def unpickleBook : PVal → Option AddressBook
  | .pobj "AddressBook" [("data", .pdict entries)] =>
      (unpickleEntries entries).map AddressBook.mk
  | _ => none

/-- Function `save_data`: the file content written by `pickle.dump`. -/
def save_data (book : AddressBook) : PVal :=
  pickleBook book

/-- Function `load_data`: a missing file yields a fresh empty book, otherwise the
file content is unpickled. -/
def load_data : Option PVal → Option AddressBook
  | some v => unpickleBook v
  | none => some ⟨[]⟩

/-- Numeric value of a digit string. -/
def digitsVal (l : List Char) : Nat :=
  l.foldl (fun a c => 10 * a + dval c) 0

/-- Declarative form of the date strings `Birthday.__init__` accepts: a
1-or-2-digit day, a dot, a 1-or-2-digit month, a dot, and exactly four
digits of year, together naming a valid calendar date (which bounds day,
month and year). -/
def FlexForm (s : String) (dt : PyDate) : Prop :=
  ∃ ds ms ys : List Char,
    s.data = ds ++ '.' :: ms ++ '.' :: ys ∧
    ds.all Char.isDigit ∧ ms.all Char.isDigit ∧ ys.all Char.isDigit ∧
    (ds.length = 1 ∨ ds.length = 2) ∧ (ms.length = 1 ∨ ms.length = 2) ∧
    ys.length = 4 ∧
    dt = ⟨digitsVal ys, digitsVal ms, digitsVal ds⟩ ∧
    validDate (digitsVal ys) (digitsVal ms) (digitsVal ds)

/-- The spec's wording of a date string "in `DD.MM.YYYY` form": two digits
of day, two of month, four of year, naming a valid calendar date. -/
def DDMMYYYYForm (s : String) (dt : PyDate) : Prop :=
  ∃ ds ms ys : List Char,
    s.data = ds ++ '.' :: ms ++ '.' :: ys ∧
    ds.all Char.isDigit ∧ ms.all Char.isDigit ∧ ys.all Char.isDigit ∧
    ds.length = 2 ∧ ms.length = 2 ∧ ys.length = 4 ∧
    dt = ⟨digitsVal ys, digitsVal ms, digitsVal ds⟩ ∧
    validDate (digitsVal ys) (digitsVal ms) (digitsVal ds)

/-- The spec's wording of the re-anchored candidate date: the birthday's
month/day placed onto the reference year, rolled to the next year when the
candidate falls strictly before the reference date. -/
def specCandidate (refDate b : PyDate) : PyDate :=
  let c0 : PyDate := ⟨refDate.year, b.month, b.day⟩
  if dateLt c0 refDate then ⟨refDate.year + 1, b.month, b.day⟩ else c0

/-- The spec's wording of the upcoming-birthdays result: for every record
with a birthday, in mapping order, include name plus re-anchored date
(formatted `DD.MM.YYYY`) iff the candidate lies in the inclusive window
from the reference date to the reference date plus seven days. -/
def specUpcoming (book : AddressBook) (refDate : PyDate) : List String :=
  book.data.filterMap fun kv =>
    match kv.2.birthday with
    | none => none
    | some b =>
        let c := specCandidate refDate b.value
        if dateLe refDate c ∧ dateLe c (addDays7 refDate) then
          some (kv.1 ++ ": " ++ strftimeDMY c)
        else none

/-! ### Basic facts about the validators -/

theorem phone_init_cases (s : String) :
    (pyIsdigit s ∧ s.length = 10 ∧ Phone.init s = .ok ⟨s⟩) ∨
    (¬(pyIsdigit s ∧ s.length = 10) ∧
      Phone.init s = .error (.valueError phoneErrMsg)) := by
  unfold Phone.init
  by_cases h : (!pyIsdigit s || s.length != 10) = true
  · right
    refine ⟨?_, by simp [h]⟩
    simp only [Bool.or_eq_true, Bool.not_eq_true', bne_iff_ne] at h
    rintro ⟨h1, h2⟩
    rcases h with h | h
    · rw [h1] at h; cases h
    · exact h h2
  · left
    simp only [Bool.or_eq_true, Bool.not_eq_true', bne_iff_ne, not_or, not_not,
      Bool.not_eq_false] at h
    exact ⟨h.1, h.2, by simp [h.1, h.2]⟩

theorem pyIsdigit_of_len {s : String} (hlen : s.length = 10) :
    pyIsdigit s = s.data.all Char.isDigit := by
  have hne : s.data ≠ [] := by
    intro he
    have : s.data.length = 10 := hlen
    rw [he] at this
    cases this
  simp [pyIsdigit, List.isEmpty_iff, hne]

/-- C3: phone validation succeeds exactly on 10-character all-digit
strings, and fails with the `InvalidPhone` error on every other input. -/
theorem phone_validation_iff (s : String) :
    (Phone.init s = .ok ⟨s⟩ ↔ (s.data.all Char.isDigit ∧ s.length = 10)) ∧
    (¬(s.data.all Char.isDigit ∧ s.length = 10) →
      Phone.init s = .error (.valueError phoneErrMsg)) := by
  rcases phone_init_cases s with ⟨h1, h2, h3⟩ | ⟨h1, h2⟩
  · constructor
    · rw [pyIsdigit_of_len h2] at h1
      exact ⟨fun _ => ⟨h1, h2⟩, fun _ => h3⟩
    · intro hc
      exact absurd ⟨by rwa [← pyIsdigit_of_len h2], h2⟩ hc
  · constructor
    · rw [h2]
      constructor
      · intro h; cases h
      · rintro ⟨ha, hl⟩
        exact absurd ⟨by rwa [pyIsdigit_of_len hl], hl⟩ h1
    · intro _; exact h2

/-- Witness for `phone_validation_iff`. -/
theorem phone_validation_iff_witness :
    Phone.init "0123456789" = .ok ⟨"0123456789"⟩ ∧
    Phone.init "12b4567890" = .error (.valueError phoneErrMsg) :=
  ⟨(phone_validation_iff "0123456789").1.mpr (by decide),
   (phone_validation_iff "12b4567890").2 (by decide)⟩

theorem phone_init_error_msg {s : String} {e : PyErr}
    (h : Phone.init s = .error e) : e = .valueError phoneErrMsg := by
  unfold Phone.init at h
  split at h
  · cases h; rfl
  · cases h

theorem phone_init_ok_val {s : String} {p : Phone}
    (h : Phone.init s = .ok p) : p = ⟨s⟩ := by
  unfold Phone.init at h
  split at h
  · cases h
  · cases h; rfl

/-! ### `Record.edit_phone` -/

theorem firstIdx_of_mem {ps : List Phone} {v : String}
    (h : v ∈ ps.map Phone.value) : ∃ i, firstIdx ps v = some i := by
  induction ps with
  | nil => cases h
  | cons p rest ih =>
      by_cases hp : p.value = v
      · exact ⟨0, by simp [firstIdx, hp]⟩
      · have hv : v ∈ rest.map Phone.value := by
          rcases List.mem_map.mp h with ⟨q, hq, hqv⟩
          rcases List.mem_cons.mp hq with rfl | hq2
          · exact absurd hqv hp
          · exact List.mem_map.mpr ⟨q, hq2, hqv⟩
        obtain ⟨i, hi⟩ := ih hv
        exact ⟨i + 1, by simp [firstIdx, hp, hi]⟩

theorem firstIdx_none_of_not_mem {ps : List Phone} {v : String}
    (h : v ∉ ps.map Phone.value) : firstIdx ps v = none := by
  induction ps with
  | nil => rfl
  | cons p rest ih =>
      have hp : p.value ≠ v := fun he => h (by simp [← he])
      have hr : v ∉ rest.map Phone.value := fun hm => h (by simp [hm])
      simp [firstIdx, hp, ih hr]


theorem firstIdx_spec {ps : List Phone} {v : String} {i : Nat}
    (h : firstIdx ps v = some i) :
    (∃ p, ps[i]? = some p ∧ p.value = v) ∧
    ∀ j, j < i → ∀ p, ps[j]? = some p → p.value ≠ v := by
  induction ps generalizing i with
  | nil => cases h
  | cons p rest ih =>
      by_cases hp : p.value = v
      · simp [firstIdx, hp] at h
        subst h
        exact ⟨⟨p, by simp, hp⟩, fun j hj => by omega⟩
      · simp [firstIdx, hp] at h
        obtain ⟨i', hi', rfl⟩ := h
        obtain ⟨⟨q, hq, hqv⟩, hfirst⟩ := ih hi'
        refine ⟨⟨q, by simpa using hq, hqv⟩, ?_⟩
        intro j hj q' hq'
        match j with
        | 0 =>
            simp at hq'
            rw [← hq']
            exact hp
        | j' + 1 =>
            simp at hq'
            exact hfirst j' (by omega) q' hq'

/-- C6: when the old value is present and the new value fails validation,
`edit_phone` raises the `InvalidPhone` error and the record — in
particular its phone list — is left exactly as it was. -/
theorem editPhone_invalid_new_unchanged (r : Record) (old new : String)
    (hold : old ∈ r.phones.map Phone.value)
    (hnew : ∃ e, Phone.init new = .error e) :
    r.edit_phone old new = (r, .error (.valueError phoneErrMsg)) := by
  obtain ⟨i, hi⟩ := firstIdx_of_mem hold
  obtain ⟨e, he⟩ := hnew
  have hmsg := phone_init_error_msg he
  subst hmsg
  unfold Record.edit_phone
  rw [hi, he]

/-- Witness for `editPhone_invalid_new_unchanged`. -/
theorem editPhone_invalid_new_unchanged_witness :
    (Record.mk "X" [⟨"0123456789"⟩] none).edit_phone "0123456789" "12"
      = (Record.mk "X" [⟨"0123456789"⟩] none, .error (.valueError phoneErrMsg)) :=
  editPhone_invalid_new_unchanged _ _ _ (by decide)
    ⟨.valueError phoneErrMsg, rfl⟩

/-- C7: with a valid new value, `edit_phone` replaces the first phone
equal to the old value in place — the list keeps its length and every
other position keeps its entry — and raises `PhoneNotFound` when no phone
matches the old value. -/
theorem editPhone_valid (r : Record) (old new : String)
    (hnew : ∃ p, Phone.init new = .ok p) :
    (∀ i, firstIdx r.phones old = some i →
        r.edit_phone old new = ({ r with phones := r.phones.set i ⟨new⟩ }, .ok ()) ∧
        (∃ p, r.phones[i]? = some p ∧ p.value = old) ∧
        (∀ j, j < i → ∀ p, r.phones[j]? = some p → p.value ≠ old) ∧
        (r.phones.set i (⟨new⟩ : Phone)).length = r.phones.length ∧
        (r.phones.set i (⟨new⟩ : Phone))[i]? = some ⟨new⟩ ∧
        (∀ j, j ≠ i →
          (r.phones.set i (⟨new⟩ : Phone))[j]? = r.phones[j]?)) ∧
    (old ∉ r.phones.map Phone.value →
        r.edit_phone old new = (r, .error (.valueError "Old phone not found"))) := by
  obtain ⟨p, hp⟩ := hnew
  have hpv := phone_init_ok_val hp
  subst hpv
  constructor
  · intro i hi
    obtain ⟨hfound, hfirst⟩ := firstIdx_spec hi
    refine ⟨?_, hfound, hfirst, ?_, ?_, ?_⟩
    · unfold Record.edit_phone
      rw [hi, hp]
    · exact List.length_set ..
    · obtain ⟨q, hq, _⟩ := hfound
      have hilt : i < r.phones.length := (List.getElem?_eq_some_iff.mp hq).1
      simp [hilt]
    · intro j hj
      exact List.getElem?_set_ne (fun he => hj he.symm)
  · intro hnm
    unfold Record.edit_phone
    rw [firstIdx_none_of_not_mem hnm]

/-- Witness for `editPhone_valid`. -/
theorem editPhone_valid_witness :
    (Record.mk "X" [⟨"0123456789"⟩, ⟨"1112223334"⟩] none).edit_phone
        "1112223334" "9998887776"
      = (Record.mk "X" [⟨"0123456789"⟩, ⟨"9998887776"⟩] none, .ok ()) := by
  have h := (editPhone_valid (Record.mk "X" [⟨"0123456789"⟩, ⟨"1112223334"⟩] none)
      "1112223334" "9998887776" ⟨⟨"9998887776"⟩, rfl⟩).1 1 rfl
  exact h.1

/-! ### `AddressBook.add_record` -/

theorem lookup_assocSet_self (l : List (String × Record)) (k : String) (v : Record) :
    lookupName (assocSet l k v) k = some v := by
  induction l with
  | nil => simp [assocSet, lookupName]
  | cons kv rest ih =>
      obtain ⟨k', v'⟩ := kv
      by_cases hk : k' = k
      · simp [assocSet, hk, lookupName]
      · simp [assocSet, hk, lookupName, ih]

theorem keys_assocSet (l : List (String × Record)) (k : String) (v : Record) :
    (assocSet l k v).map Prod.fst =
      if k ∈ l.map Prod.fst then l.map Prod.fst else l.map Prod.fst ++ [k] := by
  induction l with
  | nil => simp [assocSet]
  | cons kv rest ih =>
      obtain ⟨k', v'⟩ := kv
      by_cases hk : k' = k
      · simp [assocSet, hk]
      · by_cases hm : k ∈ rest.map Prod.fst
        · simp [assocSet, hk, ih, hm, Ne.symm hk]
        · simp [assocSet, hk, ih, hm, Ne.symm hk]

theorem nodup_assocSet {l : List (String × Record)} (k : String) (v : Record)
    (h : NodupKeys l) : NodupKeys (assocSet l k v) := by
  unfold NodupKeys at h ⊢
  rw [keys_assocSet]
  by_cases hm : k ∈ l.map Prod.fst
  · simpa [hm] using h
  · simp [hm, List.nodup_append, h]

theorem countKey_zero_of_not_mem {l : List (String × Record)} {k : String}
    (h : k ∉ l.map Prod.fst) :
    (l.filter fun kv => kv.1 = k).length = 0 := by
  induction l with
  | nil => rfl
  | cons kv rest ih =>
      have hk : ¬(kv.1 = k) := fun he => h (by simp [← he])
      have hr : k ∉ rest.map Prod.fst := fun hm => h (by simp [hm])
      simp [List.filter_cons, hk, ih hr]

theorem countKey_assocSet {l : List (String × Record)} (k : String) (v : Record)
    (h : NodupKeys l) :
    ((assocSet l k v).filter fun kv => kv.1 = k).length = 1 := by
  induction l with
  | nil => simp [assocSet]
  | cons kv rest ih =>
      obtain ⟨k', v'⟩ := kv
      unfold NodupKeys at h
      simp only [List.map_cons, List.nodup_cons] at h
      by_cases hk : k' = k
      · have hnm : k ∉ rest.map Prod.fst := by rw [← hk]; exact h.1
        simp [assocSet, hk, List.filter_cons, countKey_zero_of_not_mem hnm]
      · have ih2 := ih h.2
        simp [assocSet, hk, List.filter_cons, ih2]

/-- C8: adding two records with the same name leaves exactly one entry
under that name, `find` then returns the second record, and `add_record`
preserves the one-record-per-name invariant of the dict. -/
theorem addRecord_overwrites (book : AddressBook) (r1 r2 : Record)
    (hname : r1.name = r2.name) (hnd : NodupKeys book.data) :
    (((((book.add_record r1).add_record r2).data.filter
        fun kv => kv.1 = r2.name).length = 1) ∧
      ((book.add_record r1).add_record r2).find r2.name = some r2) ∧
    ∀ (bk : AddressBook) (r : Record),
      NodupKeys bk.data → NodupKeys (bk.add_record r).data := by
  refine ⟨⟨?_, ?_⟩, fun bk r h => nodup_assocSet r.name r h⟩
  · exact countKey_assocSet r2.name r2 (nodup_assocSet r1.name r1 hnd)
  · exact lookup_assocSet_self ..

/-- Witness for `addRecord_overwrites`. -/
theorem addRecord_overwrites_witness :
    ((((AddressBook.mk []).add_record (Record.mk "X" [⟨"0123456789"⟩] none)).add_record
          (Record.mk "X" [] none)).data.filter
        fun kv => kv.1 = "X").length = 1 ∧
    (((AddressBook.mk []).add_record (Record.mk "X" [⟨"0123456789"⟩] none)).add_record
        (Record.mk "X" [] none)).find "X" = some (Record.mk "X" [] none) :=
  (addRecord_overwrites (AddressBook.mk []) (Record.mk "X" [⟨"0123456789"⟩] none)
    (Record.mk "X" [] none) rfl (by simp [NodupKeys])).1

/-! ### Pickle round trip -/

theorem unpicklePhones_round (l : List Phone) :
    unpicklePhones (l.map picklePhone) = some l := by
  induction l with
  | nil => rfl
  | cons p rest ih => simp [unpicklePhones, unpicklePhone, picklePhone, ih]

theorem unpickleRecord_round (r : Record) :
    unpickleRecord (pickleRecord r) = some r := by
  obtain ⟨n, phones, bday⟩ := r
  cases bday with
  | none => simp [pickleRecord, unpickleRecord, unpicklePhones_round]
  | some b =>
      simp [pickleRecord, unpickleRecord, unpicklePhones_round, pickleBirthday,
        unpickleBirthday, pickleDate, unpickleDate]

theorem unpickleEntries_round (l : List (String × Record)) :
    unpickleEntries (l.map fun kv => (kv.1, pickleRecord kv.2)) = some l := by
  induction l with
  | nil => rfl
  | cons kv rest ih =>
      simp [unpickleEntries, unpickleRecord_round, ih]

/-- C9: saving an address book and loading the saved file reproduces the
book exactly — same names in the same order, same phone lists, same
birthdays. -/
theorem save_load_roundtrip (book : AddressBook) :
    load_data (some (save_data book)) = some book := by
  obtain ⟨l⟩ := book
  simp [load_data, save_data, pickleBook, unpickleBook, unpickleEntries_round]

/-! ### `add_contact` -/

theorem add_contact_invalid_phone (book : AddressBook) (name phone : String)
    (rest : List String) (hfind : book.find name = none) (hne : phone ≠ "")
    (hfail : ∃ e, Phone.init phone = .error e) :
    add_contact (name :: phone :: rest) book
      = (genericValueMsg, ⟨assocSet book.data name (Record.init name)⟩) ∧
    lookupName (assocSet book.data name (Record.init name)) name
      = some (Record.init name) := by
  obtain ⟨e, he⟩ := hfail
  constructor
  · simp [add_contact, hfind, hne, he, AddressBook.add_record, Record.init]
  · exact lookup_assocSet_self ..

/-- Witness for `add_contact_invalid_phone`. -/
theorem add_contact_invalid_phone_witness :
    add_contact ["Bob", "12ab"] (AddressBook.mk [])
      = (genericValueMsg, ⟨[("Bob", Record.init "Bob")]⟩) ∧
    lookupName [("Bob", Record.init "Bob")] "Bob" = some (Record.init "Bob") :=
  add_contact_invalid_phone (AddressBook.mk []) "Bob" "12ab" [] rfl
    (by decide) ⟨.valueError phoneErrMsg, rfl⟩

/-- Counterexample to C10 as stated: the empty string fails phone
validation, yet `add_contact` on a fresh name with an empty phone answers
"Contact added.", not the validation-error message (the record is still
inserted with an empty phone list). -/
theorem add_contact_empty_phone_cex :
    add_contact ["Bob", ""] (AddressBook.mk [])
        = ("Contact added.", ⟨[("Bob", Record.init "Bob")]⟩) ∧
    Phone.init "" = .error (.valueError phoneErrMsg) ∧
    (AddressBook.mk []).find "Bob" = none ∧
    "Contact added." ≠ genericValueMsg :=
  ⟨rfl, rfl, rfl, by decide⟩

/-! ### The upcoming-birthdays query -/

theorem replaceYear_ok {d : PyDate} {y : Nat} {c : PyDate}
    (h : replaceYear d y = .ok c) :
    c = ⟨y, d.month, d.day⟩ ∧ validDate y d.month d.day = true := by
  unfold replaceYear at h
  split at h
  · cases h; exact ⟨rfl, by assumption⟩
  · cases h

theorem gubEntries_eq_spec (today : PyDate) (l : List (String × Record)) :
    ∀ res, gubEntries today (addDays7 today) l = .ok res →
      res = specUpcoming ⟨l⟩ today := by
  induction l with
  | nil =>
      intro res h
      cases h
      rfl
  | cons kv rest ih =>
      intro res h
      obtain ⟨name, r⟩ := kv
      rw [gubEntries] at h
      cases hb : r.birthday with
      | none =>
          simp only [hb] at h
          rw [specUpcoming, List.filterMap_cons]
          simp only [hb]
          exact ih res h
      | some b =>
          simp only [hb] at h
          cases h1 : replaceYear b.value today.year with
          | error e => simp only [h1] at h; exact Except.noConfusion h
          | ok c0 =>
              simp only [h1] at h
              obtain ⟨hc0, hv0⟩ := replaceYear_ok h1
              have hcand :
                  ∀ c, (if dateLt c0 today then replaceYear b.value (today.year + 1)
                        else .ok c0) = .ok c →
                    c = specCandidate today b.value := by
                intro c hc
                unfold specCandidate
                by_cases hlt : dateLt c0 today
                · rw [if_pos hlt] at hc
                  obtain ⟨hc1, _⟩ := replaceYear_ok hc
                  rw [hc0] at hlt
                  rw [if_pos hlt]
                  exact hc1
                · rw [if_neg hlt] at hc
                  cases hc
                  rw [hc0] at hlt
                  rw [if_neg hlt]
                  exact hc0
              cases h2 : (if dateLt c0 today then replaceYear b.value (today.year + 1)
                  else .ok c0) with
              | error e => simp only [h2] at h; exact Except.noConfusion h
              | ok c =>
                  simp only [h2] at h
                  have hc := hcand c h2
                  cases h3 : gubEntries today (addDays7 today) rest with
                  | error e => simp only [h3] at h; exact Except.noConfusion h
                  | ok tail =>
                      simp only [h3, Except.ok.injEq] at h
                      rw [specUpcoming, List.filterMap_cons]
                      simp only [hb, ← hc]
                      have htail := ih tail h3
                      rw [specUpcoming] at htail
                      by_cases hw : dateLe today c ∧ dateLe c (addDays7 today)
                      · rw [if_pos hw] at h
                        rw [if_pos hw, ← h, htail]
                      · rw [if_neg hw] at h
                        rw [if_neg hw, ← h, htail]

/-- C1: whenever the upcoming-birthdays query returns normally, its result
is exactly the spec's description — per record with a birthday, re-anchor
the birthday onto the reference year, roll to the next year if the
candidate precedes the reference date, and include name plus candidate
formatted `DD.MM.YYYY` iff the candidate lies in the inclusive 7-day
window. -/
theorem upcoming_birthdays_spec (book : AddressBook) (today : PyDate)
    (res : List String)
    (h : book.get_upcoming_birthdays today = .ok res) :
    res = specUpcoming book today := by
  obtain ⟨l⟩ := book
  exact gubEntries_eq_spec today l res h

/-- Witness for `upcoming_birthdays_spec`: with reference date 2024-01-01,
a birthday 03.01.1990 is included re-anchored as `03.01.2024` and a
birthday 15.01.1990 is excluded. -/
theorem upcoming_birthdays_spec_witness :
    (AddressBook.mk
        [("Ann", Record.mk "Ann" [] (some ⟨⟨1990, 1, 3⟩⟩)),
         ("Bob", Record.mk "Bob" [] (some ⟨⟨1990, 1, 15⟩⟩))]).get_upcoming_birthdays
        ⟨2024, 1, 1⟩ = .ok ["Ann: 03.01.2024"] ∧
    ["Ann: 03.01.2024"] =
      specUpcoming
        (AddressBook.mk
          [("Ann", Record.mk "Ann" [] (some ⟨⟨1990, 1, 3⟩⟩)),
           ("Bob", Record.mk "Bob" [] (some ⟨⟨1990, 1, 15⟩⟩))]) ⟨2024, 1, 1⟩ :=
  ⟨rfl, upcoming_birthdays_spec _ _ _ rfl⟩

theorem gubEntries_ok_valid {today nextWeek : PyDate}
    {l : List (String × Record)} {res : List String}
    (h : gubEntries today nextWeek l = .ok res) :
    ∀ name r b, (name, r) ∈ l → r.birthday = some b →
      validDate today.year b.value.month b.value.day = true := by
  induction l generalizing res with
  | nil =>
      intro name r b hmem
      cases hmem
  | cons kv rest ih =>
      intro name r b hmem hb
      rw [gubEntries] at h
      rcases List.mem_cons.mp hmem with rfl | hmem2
      · simp only [hb] at h
        cases h1 : replaceYear b.value today.year with
        | error e => simp only [h1] at h; exact Except.noConfusion h
        | ok c0 => exact (replaceYear_ok h1).2
      · cases hbk : kv.2.birthday with
        | none =>
            simp only [hbk] at h
            exact ih h name r b hmem2 hb
        | some b' =>
            simp only [hbk] at h
            cases h1 : replaceYear b'.value today.year with
            | error e => simp only [h1] at h; exact Except.noConfusion h
            | ok c0 =>
                simp only [h1] at h
                cases h2 : (if dateLt c0 today then
                    replaceYear b'.value (today.year + 1) else .ok c0) with
                | error e => simp only [h2] at h; exact Except.noConfusion h
                | ok c =>
                    simp only [h2] at h
                    cases h3 : gubEntries today nextWeek rest with
                    | error e => simp only [h3] at h; exact Except.noConfusion h
                    | ok tail => exact ih h3 name r b hmem2 hb

/-- C2 (amended): a February-29 birthday re-anchored into a non-leap
reference year makes `date.replace` raise `ValueError`; the exception
escapes `get_upcoming_birthdays`, and the broad catch in the command
handler replaces the entire listing with the generic error message — every
contact is dropped from the output, not only the leap-day one, with no
signal of why. -/
theorem leapday_aborts_whole_query (book : AddressBook) (today : PyDate)
    (name : String) (r : Record) (y : Nat)
    (hmem : (name, r) ∈ book.data) (hb : r.birthday = some ⟨⟨y, 2, 29⟩⟩)
    (hnl : isLeap today.year = false) :
    (∃ e, book.get_upcoming_birthdays today = .error e) ∧
    birthdays_cmd book today = genericValueMsg := by
  have hvd : validDate today.year 2 29 = false := by
    simp [validDate, daysInMonth, hnl]
  have herr : ∀ res, book.get_upcoming_birthdays today ≠ .ok res := by
    intro res hok
    have := gubEntries_ok_valid hok name r ⟨⟨y, 2, 29⟩⟩ hmem hb
    rw [hvd] at this
    exact Bool.noConfusion this
  cases hres : book.get_upcoming_birthdays today with
  | ok res => exact absurd hres (herr res)
  | error e =>
      refine ⟨⟨e, rfl⟩, ?_⟩
      unfold birthdays_cmd
      rw [hres]

/-- Witness for `leapday_aborts_whole_query`. -/
theorem leapday_aborts_whole_query_witness :
    (∃ e, (AddressBook.mk
        [("Ann", Record.mk "Ann" [] (some ⟨⟨1990, 1, 3⟩⟩)),
         ("Leap", Record.mk "Leap" [] (some ⟨⟨2000, 2, 29⟩⟩))]).get_upcoming_birthdays
        ⟨2023, 1, 1⟩ = .error e) ∧
    birthdays_cmd
        (AddressBook.mk
          [("Ann", Record.mk "Ann" [] (some ⟨⟨1990, 1, 3⟩⟩)),
           ("Leap", Record.mk "Leap" [] (some ⟨⟨2000, 2, 29⟩⟩))])
        ⟨2023, 1, 1⟩ = genericValueMsg :=
  leapday_aborts_whole_query _ ⟨2023, 1, 1⟩ "Leap"
    (Record.mk "Leap" [] (some ⟨⟨2000, 2, 29⟩⟩)) 2000
    (by simp) rfl rfl

/-- Counterexample to C2 as stated: with records Ann (birthday 03.01.1990,
inside the window from 2023-01-01) and Leap (birthday 29.02.2000), the
`birthdays` command answers the generic error message; had only the
leap-day contact been dropped, the output would have been Ann's entry
(which is what the spec-described per-record rule yields). -/
theorem leapday_drop_cex :
    birthdays_cmd
        (AddressBook.mk
          [("Ann", Record.mk "Ann" [] (some ⟨⟨1990, 1, 3⟩⟩)),
           ("Leap", Record.mk "Leap" [] (some ⟨⟨2000, 2, 29⟩⟩))])
        ⟨2023, 1, 1⟩ = genericValueMsg ∧
    specUpcoming
        (AddressBook.mk
          [("Ann", Record.mk "Ann" [] (some ⟨⟨1990, 1, 3⟩⟩)),
           ("Leap", Record.mk "Leap" [] (some ⟨⟨2000, 2, 29⟩⟩))])
        ⟨2023, 1, 1⟩ = ["Ann: 03.01.2023"] ∧
    genericValueMsg ≠ "Ann: 03.01.2023" :=
  ⟨rfl, rfl, by decide⟩

/-! ### Digit characters -/

theorem isDigit_toNat {c : Char} (h : c.isDigit = true) :
    48 ≤ c.toNat ∧ c.toNat ≤ 57 := by
  simp only [Char.isDigit, ge_iff_le, Bool.and_eq_true, decide_eq_true_eq] at h
  obtain ⟨h1, h2⟩ := h
  exact ⟨UInt32.le_toNat_of_le (by decide) h1, UInt32.toNat_le_of_le (by decide) h2⟩

theorem dval_le_nine {c : Char} (h : c.isDigit = true) : dval c ≤ 9 := by
  obtain ⟨h1, h2⟩ := isDigit_toNat h
  unfold dval
  omega

theorem dchr_dval {c : Char} (h : c.isDigit = true) : dchr (dval c) = c := by
  obtain ⟨h1, _⟩ := isDigit_toNat h
  unfold dchr dval
  have he : 48 + (c.toNat - 48) = c.toNat := by omega
  rw [he]
  exact Char.ofNat_toNat c

theorem dval_dchr {n : Nat} (h : n < 10) : dval (dchr n) = n := by
  interval_cases n <;> decide

theorem dchr_isDigit {n : Nat} (h : n < 10) : (dchr n).isDigit = true := by
  interval_cases n <;> decide

theorem digitsVal_one (a : Char) : digitsVal [a] = dval a := by
  simp [digitsVal, List.foldl]

theorem digitsVal_two (a b : Char) : digitsVal [a, b] = two a b := by
  simp [digitsVal, List.foldl, two]

theorem digitsVal_four (e f g h : Char) : digitsVal [e, f, g, h] = four e f g h := by
  simp only [digitsVal, List.foldl, four]
  ring

/-- Soundness of the `strptime` embedding: an accepted string decomposes
into 1-2 digits of day, a dot, 1-2 digits of month, a dot, and exactly 4
digits of year, with the returned values being the groups' values and the
day/month lying in the regex ranges. -/
theorem strptime_sound {s : String} {d m y : Nat}
    (h : strptimeDMY s = some (d, m, y)) :
    ∃ ds ms ys : List Char,
      s.data = ds ++ '.' :: ms ++ '.' :: ys ∧
      ds.all Char.isDigit = true ∧ ms.all Char.isDigit = true ∧
      ys.all Char.isDigit = true ∧
      (ds.length = 1 ∨ ds.length = 2) ∧ (ms.length = 1 ∨ ms.length = 2) ∧
      ys.length = 4 ∧
      d = digitsVal ds ∧ m = digitsVal ms ∧ y = digitsVal ys ∧
      1 ≤ d ∧ d ≤ 31 ∧ 1 ≤ m ∧ m ≤ 12 := by
  unfold strptimeDMY at h
  split at h
  · rename_i c1 c2 c3 c4 c5 c6 c7 c8 heq
    split at h
    · rename_i hg
      simp only [Option.some.injEq, Prod.mk.injEq] at h
      obtain ⟨rfl, rfl, rfl⟩ := h
      obtain ⟨h1, h2, h3, h4, h5, h6, h7, h8, hd1, hd31, hm1, hm12⟩ := hg
      refine ⟨[c1, c2], [c3, c4], [c5, c6, c7, c8], heq, ?_, ?_, ?_,
        .inr rfl, .inr rfl, rfl, (digitsVal_two ..).symm, (digitsVal_two ..).symm,
        (digitsVal_four ..).symm, hd1, hd31, hm1, hm12⟩
      · simp [h1, h2]
      · simp [h3, h4]
      · simp [h5, h6, h7, h8]
    · exact Option.noConfusion h
  · rename_i c1 c2 c3 c5 c6 c7 c8 heq
    split at h
    · rename_i hg
      simp only [Option.some.injEq, Prod.mk.injEq] at h
      obtain ⟨rfl, rfl, rfl⟩ := h
      obtain ⟨h1, h2, h3, h5, h6, h7, h8, hd1, hd31, hm1⟩ := hg
      refine ⟨[c1, c2], [c3], [c5, c6, c7, c8], heq, ?_, ?_, ?_,
        .inr rfl, .inl rfl, rfl, (digitsVal_two ..).symm, (digitsVal_one ..).symm,
        (digitsVal_four ..).symm, hd1, hd31, ?_, ?_⟩
      · simp [h1, h2]
      · simp [h3]
      · simp [h5, h6, h7, h8]
      · exact hm1
      · have := dval_le_nine h3
        omega
    · exact Option.noConfusion h
  · rename_i c1 c3 c4 c5 c6 c7 c8 hnc heq
    split at h
    · rename_i hg
      simp only [Option.some.injEq, Prod.mk.injEq] at h
      obtain ⟨rfl, rfl, rfl⟩ := h
      obtain ⟨h1, h3, h4, h5, h6, h7, h8, hd1, hm1, hm12⟩ := hg
      refine ⟨[c1], [c3, c4], [c5, c6, c7, c8], heq, ?_, ?_, ?_,
        .inl rfl, .inr rfl, rfl, (digitsVal_one ..).symm, (digitsVal_two ..).symm,
        (digitsVal_four ..).symm, ?_, ?_, hm1, hm12⟩
      · simp [h1]
      · simp [h3, h4]
      · simp [h5, h6, h7, h8]
      · exact hd1
      · have := dval_le_nine h1
        omega
    · exact Option.noConfusion h
  · rename_i c1 c3 c5 c6 c7 c8 heq
    split at h
    · rename_i hg
      simp only [Option.some.injEq, Prod.mk.injEq] at h
      obtain ⟨rfl, rfl, rfl⟩ := h
      obtain ⟨h1, h3, h5, h6, h7, h8, hd1, hm1⟩ := hg
      refine ⟨[c1], [c3], [c5, c6, c7, c8], heq, ?_, ?_, ?_,
        .inl rfl, .inl rfl, rfl, (digitsVal_one ..).symm, (digitsVal_one ..).symm,
        (digitsVal_four ..).symm, ?_, ?_, ?_, ?_⟩
      · simp [h1]
      · simp [h3]
      · simp [h5, h6, h7, h8]
      · exact hd1
      · have := dval_le_nine h1
        omega
      · exact hm1
      · have := dval_le_nine h3
        omega
    · exact Option.noConfusion h
  · exact Option.noConfusion h

theorem dotNotDigit : ('.' : Char).isDigit = false := by decide

set_option maxHeartbeats 1000000 in
/-- Completeness of the `strptime` embedding: every string of the
declarative shape parses to the groups' values. -/
theorem strptime_complete {s : String} {d m y : Nat} {ds ms ys : List Char}
    (heq : s.data = ds ++ '.' :: ms ++ '.' :: ys)
    (hds : ds.all Char.isDigit = true) (hms : ms.all Char.isDigit = true)
    (hys : ys.all Char.isDigit = true)
    (hdl : ds.length = 1 ∨ ds.length = 2) (hml : ms.length = 1 ∨ ms.length = 2)
    (hyl : ys.length = 4)
    (hd : d = digitsVal ds) (hm : m = digitsVal ms) (hy : y = digitsVal ys)
    (h1 : 1 ≤ d) (h2 : d ≤ 31) (h3 : 1 ≤ m) (h4 : m ≤ 12) :
    strptimeDMY s = some (d, m, y) := by
  subst hd
  subst hm
  subst hy
  obtain ⟨y1, t1, rfl⟩ := List.exists_of_length_succ ys hyl
  have ht1 : t1.length = 3 := by simpa using hyl
  obtain ⟨y2, t2, rfl⟩ := List.exists_of_length_succ t1 ht1
  have ht2 : t2.length = 2 := by simpa using ht1
  obtain ⟨y3, t3, rfl⟩ := List.exists_of_length_succ t2 ht2
  have ht3 : t3.length = 1 := by simpa using ht2
  obtain ⟨y4, t4, rfl⟩ := List.exists_of_length_succ t3 ht3
  have ht4 : t4 = [] := List.length_eq_zero.mp (by simpa using ht3)
  subst ht4
  clear hyl ht1 ht2 ht3
  rcases hdl with hdl | hdl <;> rcases hml with hml | hml
  · obtain ⟨a, rfl⟩ := List.length_eq_one.mp hdl
    obtain ⟨c, rfl⟩ := List.length_eq_one.mp hml
    clear hdl hml
    simp only [List.cons_append, List.nil_append] at heq
    simp only [digitsVal_one, digitsVal_two, digitsVal_four] at h1 h2 h3 h4 ⊢
    simp only [List.all_cons, List.all_nil, Bool.and_eq_true, and_true] at hds hms hys
    obtain ⟨hy1, hy2, hy3, hy4⟩ := hys
    unfold strptimeDMY
    rw [heq]
    split
    case h_1 => simp_all [dotNotDigit]
    case h_2 => simp_all [dotNotDigit]
    case h_3 => simp_all [dotNotDigit]
    case h_4 => simp_all [dotNotDigit] <;> omega
    case h_5 =>
      rename_i h10 h9a h9b h8
      exact absurd rfl (h8 a c y1 y2 y3 y4)
  · obtain ⟨a, rfl⟩ := List.length_eq_one.mp hdl
    obtain ⟨c, c2, rfl⟩ := List.length_eq_two.mp hml
    clear hdl hml
    simp only [List.cons_append, List.nil_append] at heq
    simp only [digitsVal_one, digitsVal_two, digitsVal_four] at h1 h2 h3 h4 ⊢
    simp only [List.all_cons, List.all_nil, Bool.and_eq_true, and_true] at hds hms hys
    obtain ⟨hy1, hy2, hy3, hy4⟩ := hys
    obtain ⟨hm1, hm2⟩ := hms
    unfold strptimeDMY
    rw [heq]
    split
    case h_1 => simp_all [dotNotDigit]
    case h_2 => simp_all [dotNotDigit]
    case h_3 => simp_all [dotNotDigit] <;> omega
    case h_4 => simp_all [dotNotDigit]
    case h_5 =>
      rename_i h10 h9a h9b h8
      exact absurd rfl (h9b a c c2 y1 y2 y3 y4)
  · obtain ⟨a, a2, rfl⟩ := List.length_eq_two.mp hdl
    obtain ⟨c, rfl⟩ := List.length_eq_one.mp hml
    clear hdl hml
    simp only [List.cons_append, List.nil_append] at heq
    simp only [digitsVal_one, digitsVal_two, digitsVal_four] at h1 h2 h3 h4 ⊢
    simp only [List.all_cons, List.all_nil, Bool.and_eq_true, and_true] at hds hms hys
    obtain ⟨hy1, hy2, hy3, hy4⟩ := hys
    obtain ⟨hd1, hd2⟩ := hds
    unfold strptimeDMY
    rw [heq]
    split
    case h_1 => simp_all [dotNotDigit]
    case h_2 => simp_all [dotNotDigit] <;> omega
    case h_3 => simp_all [dotNotDigit]
    case h_4 => simp_all [dotNotDigit]
    case h_5 =>
      rename_i h10 h9a h9b h8
      exact absurd rfl (h9a a a2 c y1 y2 y3 y4)
  · obtain ⟨a, a2, rfl⟩ := List.length_eq_two.mp hdl
    obtain ⟨c, c2, rfl⟩ := List.length_eq_two.mp hml
    clear hdl hml
    simp only [List.cons_append, List.nil_append] at heq
    simp only [digitsVal_one, digitsVal_two, digitsVal_four] at h1 h2 h3 h4 ⊢
    simp only [List.all_cons, List.all_nil, Bool.and_eq_true, and_true] at hds hms hys
    obtain ⟨hy1, hy2, hy3, hy4⟩ := hys
    obtain ⟨hd1, hd2⟩ := hds
    obtain ⟨hm1, hm2⟩ := hms
    unfold strptimeDMY
    rw [heq]
    split
    case h_1 => simp_all [dotNotDigit] <;> omega
    case h_2 => simp_all [dotNotDigit]
    case h_3 => simp_all [dotNotDigit]
    case h_4 => simp_all [dotNotDigit]
    case h_5 =>
      rename_i h10 h9a h9b h8
      exact absurd rfl (h10 a a2 c c2 y1 y2 y3 y4)

theorem daysInMonth_le_31 (y m : Nat) : daysInMonth y m ≤ 31 := by
  unfold daysInMonth
  split
  · split <;> omega
  · split <;> omega

theorem birthday_init_error_msg {s : String} {e : PyErr}
    (h : Birthday.init s = .error e) : e = .valueError dateErrMsg := by
  unfold Birthday.init at h
  split at h
  · split at h
    · exact Except.noConfusion h
    · cases h; rfl
  · cases h; rfl

/-- The success values of `Birthday.__init__` are exactly the strings of
the flexible declarative shape naming a valid calendar date. -/
theorem birthday_init_ok_iff {s : String} {dt : PyDate} :
    Birthday.init s = .ok ⟨dt⟩ ↔ FlexForm s dt := by
  constructor
  · intro h
    unfold Birthday.init at h
    split at h
    · rename_i d m y heq
      split at h
      · rename_i hvd
        simp only [Except.ok.injEq, Birthday.mk.injEq] at h
        obtain ⟨ds, ms, ys, hseq, hds, hms, hys, hdl, hml, hyl, hdv, hmv, hyv,
          _, _, _, _⟩ := strptime_sound heq
        refine ⟨ds, ms, ys, hseq, hds, hms, hys, hdl, hml, hyl, ?_, ?_⟩
        · rw [← h, ← hdv, ← hmv, ← hyv]
        · rw [← hdv, ← hmv, ← hyv]
          exact hvd
      · exact Except.noConfusion h
    · exact Except.noConfusion h
  · intro hf
    obtain ⟨ds, ms, ys, heq, hds, hms, hys, hdl, hml, hyl, hdt, hvd⟩ := hf
    have hranges := hvd
    simp only [validDate, Bool.and_eq_true, decide_eq_true_eq] at hranges
    obtain ⟨⟨⟨⟨⟨hy1, hy2⟩, hm1⟩, hm2⟩, hd1⟩, hd2⟩ := hranges
    have hd31 : digitsVal ds ≤ 31 :=
      le_trans hd2 (daysInMonth_le_31 ..)
    have hp := strptime_complete heq hds hms hys hdl hml hyl rfl rfl rfl
      hd1 hd31 hm1 hm2
    unfold Birthday.init
    rw [hp]
    simp only [hvd, if_pos]
    rw [hdt]
  
/-- C4 (amended): birthday validation succeeds exactly on strings of the
form day.month.year with a 1-or-2-digit day, a 1-or-2-digit month and a
4-digit year naming a valid calendar date, and fails with the
`InvalidDate` error on every other input (including correctly formatted
but impossible calendar dates). -/
theorem birthday_validation_flex (s : String) :
    (∀ dt : PyDate, Birthday.init s = .ok ⟨dt⟩ ↔ FlexForm s dt) ∧
    ((∃ dt, Birthday.init s = .ok ⟨dt⟩) ∨
      Birthday.init s = .error (.valueError dateErrMsg)) := by
  refine ⟨fun dt => birthday_init_ok_iff, ?_⟩
  cases hi : Birthday.init s with
  | ok b => exact .inl ⟨b.value, rfl⟩
  | error e => exact .inr (by rw [birthday_init_error_msg hi])

/-- Counterexample to C4 as stated: `"3.1.1990"` parses successfully
although its day and month are single digits, so validation does not
require the fixed 2-digit-day, 2-digit-month pattern. -/
theorem birthday_one_digit_cex :
    Birthday.init "3.1.1990" = .ok ⟨⟨1990, 1, 3⟩⟩ ∧
    ∀ dt, ¬ DDMMYYYYForm "3.1.1990" dt := by
  refine ⟨rfl, ?_⟩
  intro dt hf
  obtain ⟨ds, ms, ys, heq, _, _, _, h2, h2m, h4, _, _⟩ := hf
  have hlen : ("3.1.1990".data).length = (ds ++ '.' :: ms ++ '.' :: ys).length :=
    congrArg List.length heq
  rw [show ("3.1.1990".data).length = 8 from rfl] at hlen
  simp [List.length_append, h2, h2m, h4] at hlen

theorem pad2_digits {a b : Char} (ha : a.isDigit = true) (hb : b.isDigit = true) :
    pad2 (two a b) = [a, b] := by
  unfold pad2 two
  have ha9 := dval_le_nine ha
  have hb9 := dval_le_nine hb
  have h1 : (10 * dval a + dval b) / 10 % 10 = dval a := by omega
  have h2 : (10 * dval a + dval b) % 10 = dval b := by omega
  rw [h1, h2, dchr_dval ha, dchr_dval hb]

theorem pad4_digits {e f g h : Char} (he : e.isDigit = true)
    (hf : f.isDigit = true) (hg : g.isDigit = true) (hh : h.isDigit = true) :
    pad4 (four e f g h) = [e, f, g, h] := by
  unfold pad4 four
  have he9 := dval_le_nine he
  have hf9 := dval_le_nine hf
  have hg9 := dval_le_nine hg
  have hh9 := dval_le_nine hh
  have h1 : (1000 * dval e + 100 * dval f + 10 * dval g + dval h) / 1000 % 10
      = dval e := by omega
  have h2 : (1000 * dval e + 100 * dval f + 10 * dval g + dval h) / 100 % 10
      = dval f := by omega
  have h3 : (1000 * dval e + 100 * dval f + 10 * dval g + dval h) / 10 % 10
      = dval g := by omega
  have h4 : (1000 * dval e + 100 * dval f + 10 * dval g + dval h) % 10
      = dval h := by omega
  rw [h1, h2, h3, h4, dchr_dval he, dchr_dval hf, dchr_dval hg, dchr_dval hh]

/-- C5 (amended): parsing a date string in strict `DD.MM.YYYY` form and
reformatting the stored date yields the original string back, and parsing
fails with the `InvalidDate` error exactly on the strings outside the
(flexible) accepted shape. -/
theorem birthday_parse_format_roundtrip :
    (∀ (s : String) (dt : PyDate), DDMMYYYYForm s dt →
        Birthday.init s = .ok ⟨dt⟩ ∧ strftimeDMY dt = s) ∧
    (∀ s : String, (∃ dt, FlexForm s dt) ∨
        Birthday.init s = .error (.valueError dateErrMsg)) := by
  constructor
  · intro s dt hf
    obtain ⟨ds, ms, ys, heq, hds, hms, hys, hdl, hml, hyl, hdt, hvd⟩ := hf
    have hflex : FlexForm s dt :=
      ⟨ds, ms, ys, heq, hds, hms, hys, .inr hdl, .inr hml, hyl, hdt, hvd⟩
    refine ⟨birthday_init_ok_iff.mpr hflex, ?_⟩
    obtain ⟨a, b, rfl⟩ := List.length_eq_two.mp hdl
    obtain ⟨c, c2, rfl⟩ := List.length_eq_two.mp hml
    obtain ⟨y1, t1, rfl⟩ := List.exists_of_length_succ ys hyl
    have ht1 : t1.length = 3 := by simpa using hyl
    obtain ⟨y2, t2, rfl⟩ := List.exists_of_length_succ t1 ht1
    have ht2 : t2.length = 2 := by simpa using ht1
    obtain ⟨y3, t3, rfl⟩ := List.exists_of_length_succ t2 ht2
    have ht3 : t3.length = 1 := by simpa using ht2
    obtain ⟨y4, t4, rfl⟩ := List.exists_of_length_succ t3 ht3
    have ht4 : t4 = [] := List.length_eq_zero.mp (by simpa using ht3)
    subst ht4
    simp only [List.all_cons, List.all_nil, Bool.and_eq_true, and_true]
      at hds hms hys
    obtain ⟨ha, hb⟩ := hds
    obtain ⟨hc, hc2⟩ := hms
    obtain ⟨h1, h2, h3, h4⟩ := hys
    subst hdt
    cases s with
    | mk data =>
        simp only [List.cons_append, List.nil_append] at heq
        rw [strftimeDMY, heq]
        congr 1
        simp only [digitsVal_two, digitsVal_four]
        rw [pad2_digits ha hb, pad2_digits hc hc2, pad4_digits h1 h2 h3 h4]
        simp
  · intro s
    cases hi : Birthday.init s with
    | ok b =>
        exact .inl ⟨b.value, birthday_init_ok_iff.mp hi⟩
    | error e => exact .inr (by rw [birthday_init_error_msg hi])

/-- Witness for `birthday_parse_format_roundtrip`. -/
theorem birthday_parse_format_roundtrip_witness :
    Birthday.init "15.04.2000" = .ok ⟨⟨2000, 4, 15⟩⟩ ∧
    strftimeDMY ⟨2000, 4, 15⟩ = "15.04.2000" :=
  birthday_parse_format_roundtrip.1 "15.04.2000" ⟨2000, 4, 15⟩
    ⟨['1', '5'], ['0', '4'], ['2', '0', '0', '0'], rfl, rfl, rfl, rfl,
      rfl, rfl, rfl, rfl, rfl⟩

/-- Counterexample to C5 as stated: `"5.6.1999"` is not a string in
`DD.MM.YYYY` form, yet birthday parsing succeeds on it instead of failing
with the `InvalidDate` error. -/
theorem birthday_malformed_parses_cex :
    Birthday.init "5.6.1999" = .ok ⟨⟨1999, 6, 5⟩⟩ ∧
    ∀ dt, ¬ DDMMYYYYForm "5.6.1999" dt := by
  refine ⟨rfl, ?_⟩
  intro dt hf
  obtain ⟨ds, ms, ys, heq, _, _, _, h2, h2m, h4, _, _⟩ := hf
  have hlen : ("5.6.1999".data).length = (ds ++ '.' :: ms ++ '.' :: ys).length :=
    congrArg List.length heq
  rw [show ("5.6.1999".data).length = 8 from rfl] at hlen
  simp [List.length_append, h2, h2m, h4] at hlen
